import Mathlib

/-!
Verification development for the astrology-quiz web application
(`main.go`): the HMAC-signed quiz-state authenticator and the
leaderboard store.

Pure Go functions are embedded as Lean functions; the process state
touched by the leaderboard code (the in-memory manager, the persisted
JSON file, and the snapshot slices handed out by `getLeaderboard`) is
embedded as an explicit state record threaded through the operations.
Bytes are `Nat` values below 256; Go `int` is embedded as `Int`;
`time.Time` is embedded as a `Nat` instant (`Before` is `<`).
-/

namespace AstroQuiz

/-- `QuizState` from `main.go`: the client-side quiz state carried in the
signed token (`question_ids`, `current_index`, `score`). -/
structure QuizState where
  questionIDs : List String
  currentIndex : Int
  score : Int
deriving DecidableEq

/-! ## Characters and digits used by the JSON and hex codecs -/

/-- The decimal digit character for `d < 10` (`'0'`–`'9'`). -/
def decDigitChar (d : Nat) : Char := Char.ofNat (48 + d)

/-- The lowercase hexadecimal digit character for `d < 16`, as emitted by
Go's `encoding/hex` and `encoding/json` (`"0123456789abcdef"`). -/
def hexDigitChar (d : Nat) : Char := Char.ofNat (if d < 10 then 48 + d else 87 + d)

/-- Whether `c` is an ASCII decimal digit. -/
def decDigit (c : Char) : Bool := 48 ≤ c.toNat && c.toNat ≤ 57

/-- Hexadecimal value of a digit character; Go's `encoding/hex` accepts
`0-9`, `a-f` and `A-F`. -/
def hexVal (c : Char) : Option Nat :=
  if 48 ≤ c.toNat && c.toNat ≤ 57 then some (c.toNat - 48)
  else if 97 ≤ c.toNat && c.toNat ≤ 102 then some (c.toNat - 87)
  else if 65 ≤ c.toNat && c.toNat ≤ 70 then some (c.toNat - 55)
  else none

/-! ## JSON string escaping

Modelled from the Go standard library: `encoding/json` (with its default
HTML escaping) emits the two-character escapes for quote, backslash,
newline, carriage return and tab, escapes the remaining control
characters as backslash-u00xx, escapes the angle brackets and ampersand
and the separators U+2028/U+2029 in backslash-u form; every
other character is emitted verbatim. -/

/-- JSON escape of one character, following `encoding/json`'s encoder. -/
def escapeChar (c : Char) : List Char :=
  if c = '"' then ['\\', '"']
  else if c = '\\' then ['\\', '\\']
  else if c = '\n' then ['\\', 'n']
  else if c = '\r' then ['\\', 'r']
  else if c = '\t' then ['\\', 't']
  else if c.toNat < 32 then
    ['\\', 'u', '0', '0', hexDigitChar (c.toNat / 16), hexDigitChar (c.toNat % 16)]
  else if c = '<' then ['\\', 'u', '0', '0', '3', 'c']
  else if c = '>' then ['\\', 'u', '0', '0', '3', 'e']
  else if c = '&' then ['\\', 'u', '0', '0', '2', '6']
  else if c.toNat = 8232 then ['\\', 'u', '2', '0', '2', '8']
  else if c.toNat = 8233 then ['\\', 'u', '2', '0', '2', '9']
  else [c]

/-- JSON escape of a character sequence. -/
def escList : List Char → List Char
  | [] => []
  | c :: cs => escapeChar c ++ escList cs

/-! ## JSON rendering of `QuizState`

Modelled from the Go standard library: `encoding/json.Marshal` of a
`QuizState` emits the object fields in struct order with no extra
whitespace: `{"question_ids":…,"current_index":…,"score":…}`. -/

/-- Decimal rendering of a natural number (`0` renders as `"0"`). -/
def natDec (n : Nat) : List Char :=
  if n = 0 then ['0'] else (Nat.digits 10 n).reverse.map decDigitChar

/-- Decimal rendering of a Go `int` value. -/
def intDec (n : Int) : List Char :=
  if n < 0 then '-' :: natDec n.natAbs else natDec n.toNat

/-- JSON rendering of a string: quoted and escaped. -/
def renderStr (s : String) : List Char := '"' :: escList s.data ++ ['"']

/-- JSON rendering of the elements of a non-empty string array,
comma-separated. -/
def renderArrElems : List String → List Char
  | [] => []
  | [s] => renderStr s
  | s :: rest => renderStr s ++ ',' :: renderArrElems rest

/-- JSON rendering of a `[]string` value (the empty slice renders as
`[]`). -/
def renderArr (l : List String) : List Char :=
  match l with
  | [] => ['[', ']']
  | _ => '[' :: renderArrElems l ++ [']']

/-- The literal `{"question_ids":` prefix of the serialized object. -/
def keyQuestionIds : List Char := "\x7b\"question_ids\":".data

/-- The literal `,"current_index":` separator of the serialized object. -/
def keyCurrentIndex : List Char := ",\"current_index\":".data

/-- The literal `,"score":` separator of the serialized object. -/
def keyScore : List Char := ",\"score\":".data

/-- The serialized JSON object for a `QuizState`, as a character list. -/
def quizStateJsonChars (s : QuizState) : List Char :=
  keyQuestionIds ++ renderArr s.questionIDs ++
    keyCurrentIndex ++ intDec s.currentIndex ++
    keyScore ++ intDec s.score ++ ['\x7d']

/-- `json.Marshal` output for a `QuizState`, as a string. -/
def quizStateJson (s : QuizState) : String := ⟨quizStateJsonChars s⟩

/-- Modelled from the Go standard library: `encoding/json.Marshal` fails
only on unsupported types or values (channels, functions, cyclic data,
non-finite floats); a `QuizState` (strings and ints) contains none, so
marshalling it always succeeds. The `Option` mirrors the `(data, err)`
return checked by `signQuizState`. -/
def jsonMarshalQuizState (s : QuizState) : Option String := some (quizStateJson s)

/-! ## JSON parsing of `QuizState`

Modelled from the Go standard library: `encoding/json.Unmarshal` into a
`QuizState`, restricted to the canonical grammar that `Marshal` emits
(field order and spacing as above; the library additionally tolerates
whitespace and reordered fields, which nothing here depends on). `null`
is accepted for the slice field, as `Unmarshal` does. -/

/-- Consume an expected literal prefix. -/
def parseLit : List Char → List Char → Option (List Char)
  | [], cs => some cs
  | _ :: _, [] => none
  | l :: ls, c :: cs => if c = l then parseLit ls cs else none

/-- Fuel-indexed JSON string-body parser: consumes characters up to an
unescaped closing quote, undoing the escapes of `escapeChar` (plus the
standard `\/`, `\b`, `\f` and general `\uXXXX` forms). Returns the
decoded characters and the input after the closing quote. -/
def parseJStrF : Nat → List Char → Option (List Char × List Char)
  | 0, _ => none
  | _ + 1, [] => none
  | fuel + 1, c :: cs =>
    if c = '"' then some ([], cs)
    else if c = '\\' then
      match cs with
      | [] => none
      | e :: cs' =>
        if e = '"' then (parseJStrF fuel cs').map (fun p => ('"' :: p.1, p.2))
        else if e = '\\' then (parseJStrF fuel cs').map (fun p => ('\\' :: p.1, p.2))
        else if e = '/' then (parseJStrF fuel cs').map (fun p => ('/' :: p.1, p.2))
        else if e = 'n' then (parseJStrF fuel cs').map (fun p => ('\n' :: p.1, p.2))
        else if e = 'r' then (parseJStrF fuel cs').map (fun p => ('\r' :: p.1, p.2))
        else if e = 't' then (parseJStrF fuel cs').map (fun p => ('\t' :: p.1, p.2))
        else if e = 'b' then (parseJStrF fuel cs').map (fun p => (Char.ofNat 8 :: p.1, p.2))
        else if e = 'f' then (parseJStrF fuel cs').map (fun p => (Char.ofNat 12 :: p.1, p.2))
        else if e = 'u' then
          match cs' with
          | h1 :: h2 :: h3 :: h4 :: cs'' =>
            match hexVal h1, hexVal h2, hexVal h3, hexVal h4 with
            | some a, some b, some x, some y =>
              (parseJStrF fuel cs'').map
                (fun p => (Char.ofNat (((a * 16 + b) * 16 + x) * 16 + y) :: p.1, p.2))
            | _, _, _, _ => none
          | _ => none
        else none
    else (parseJStrF fuel cs).map (fun p => (c :: p.1, p.2))

/-- Parse a quoted JSON string, returning it and the remaining input. -/
def parseJString (cs : List Char) : Option (String × List Char) :=
  match cs with
  | '"' :: rest => (parseJStrF (rest.length + 1) rest).map (fun p => (⟨p.1⟩, p.2))
  | _ => none

/-- Fuel-indexed loop parsing the comma-separated elements of a
non-empty JSON string array, after the opening bracket. -/
def parseArrElemsF : Nat → List Char → Option (List String × List Char)
  | 0, _ => none
  | fuel + 1, cs =>
    match parseJString cs with
    | none => none
    | some (s, rest) =>
      match rest with
      | ',' :: r2 => (parseArrElemsF fuel r2).map (fun p => (s :: p.1, p.2))
      | ']' :: r2 => some ([s], r2)
      | _ => none

/-- Parse a JSON `[]string` value: `null`, `[]`, or a bracketed list of
strings. -/
def parseJsonStrArr (cs : List Char) : Option (List String × List Char) :=
  match cs with
  | 'n' :: 'u' :: 'l' :: 'l' :: rest => some ([], rest)
  | '[' :: rest =>
    match rest with
    | ']' :: r2 => some ([], r2)
    | _ => parseArrElemsF (rest.length + 1) rest
  | _ => none

/-- Parse a JSON natural number (a non-empty run of decimal digits). -/
def parseNatNum (cs : List Char) : Option (Nat × List Char) :=
  let ds := cs.takeWhile decDigit
  if ds.isEmpty then none
  else some (ds.foldl (fun a c => 10 * a + (c.toNat - 48)) 0, cs.dropWhile decDigit)

/-- Parse a JSON integer (optional leading minus, then digits). -/
def parseIntNum (cs : List Char) : Option (Int × List Char) :=
  match cs with
  | [] => none
  | c :: rest =>
    if c = '-' then (parseNatNum rest).map (fun p => (-(p.1 : Int), p.2))
    else (parseNatNum cs).map (fun p => ((p.1 : Int), p.2))

/-- Parse the canonical serialized `QuizState` object, requiring the
whole input to be consumed (`Unmarshal` rejects trailing data). -/
def parseQuizState (cs : List Char) : Option QuizState :=
  match parseLit keyQuestionIds cs with
  | none => none
  | some cs1 =>
    match parseJsonStrArr cs1 with
    | none => none
    | some (ids, cs2) =>
      match parseLit keyCurrentIndex cs2 with
      | none => none
      | some cs3 =>
        match parseIntNum cs3 with
        | none => none
        | some (ci, cs4) =>
          match parseLit keyScore cs4 with
          | none => none
          | some cs6 =>
            match parseIntNum cs6 with
            | none => none
            | some (scv, cs7) =>
              match cs7 with
              | ['\x7d'] => some ⟨ids, ci, scv⟩
              | _ => none

/-- `encoding/json.Unmarshal` of a string into a `QuizState`, as used by
`verifyQuizState`. -/
def jsonUnmarshalQuizState (j : String) : Option QuizState := parseQuizState j.data

/-! ## Hexadecimal encoding (encoding/hex model) -/

/-- `hex.EncodeToString`: each byte becomes two lowercase hex digits. -/
def hexEncChars : List Nat → List Char
  | [] => []
  | b :: rest => hexDigitChar (b / 16) :: hexDigitChar (b % 16) :: hexEncChars rest

/-- `hex.EncodeToString` as a string. -/
def hexEncodeStr (l : List Nat) : String := ⟨hexEncChars l⟩

/-- `hex.DecodeString` on a character list: fails on odd length or any
non-hex character. -/
def hexDecode : List Char → Option (List Nat)
  | [] => some []
  | [_] => none
  | a :: b :: rest =>
    match hexVal a, hexVal b with
    | some x, some y => (hexDecode rest).map (fun l => (16 * x + y) :: l)
    | _, _ => none

/-- `hex.DecodeString` on a string. -/
def hexDecodeStr (s : String) : Option (List Nat) := hexDecode s.data

/-! ## UTF-8 bytes of a string (Go `[]byte(s)` on valid strings) -/

/-- UTF-8 encoding of one character. -/
def utf8Bytes (c : Char) : List Nat :=
  let n := c.toNat
  if n < 128 then [n]
  else if n < 2048 then [192 + n / 64, 128 + n % 64]
  else if n < 65536 then [224 + n / 4096, 128 + (n / 64) % 64, 128 + n % 64]
  else [240 + n / 262144, 128 + (n / 4096) % 64, 128 + (n / 64) % 64, 128 + n % 64]

/-- The byte sequence of a string (`[]byte(s)` in Go). -/
def strBytes (s : String) : List Nat := (s.data.map utf8Bytes).flatten

/-! ## SHA-256 and HMAC (crypto/sha256, crypto/hmac model)

Modelled from the Go standard library: `crypto/sha256` (FIPS 180-4) and
`crypto/hmac`. All word arithmetic is on `Nat` reduced modulo `2 ^ 32`.
The claims below use the digest only as a deterministic function whose
output is a list of bytes; none of them depends on its internals. -/

/-- Right rotation of a 32-bit word. -/
def rotr32 (n x : Nat) : Nat := x / 2 ^ n + x % 2 ^ n * 2 ^ (32 - n)

/-- The SHA-256 round constants. -/
def sha256K : List Nat :=
  [1116352408, 1899447441, 3049323471, 3921009573, 961987163, 1508970993,
   2453635748, 2870763221, 3624381080, 310598401, 607225278, 1426881987,
   1925078388, 2162078206, 2614888103, 3248222580, 3835390401, 4022224774,
   264347078, 604807628, 770255983, 1249150122, 1555081692, 1996064986,
   2554220882, 2821834349, 2952996808, 3210313671, 3336571891, 3584528711,
   113926993, 338241895, 666307205, 773529912, 1294757372, 1396182291,
   1695183700, 1986661051, 2177026350, 2456956037, 2730485921, 2820302411,
   3259730800, 3345764771, 3516065817, 3600352804, 4094571909, 275423344,
   430227734, 506948616, 659060556, 883997877, 958139571, 1322822218,
   1537002063, 1747873779, 1955562222, 2024104815, 2227730452, 2361852424,
   2428436474, 2756734187, 3204031479, 3329325298]

/-- The SHA-256 initial hash value. -/
def sha256H0 : List Nat :=
  [1779033703, 3144134277, 1013904242, 2773480762,
   1359893119, 2600822924, 528734635, 1541459225]

/-- Big-endian bytes of a 32-bit word; every element is below 256. -/
def wordToBytes (w : Nat) : List Nat :=
  [w / 2 ^ 24 % 256, w / 2 ^ 16 % 256, w / 2 ^ 8 % 256, w % 256]

/-- Big-endian bytes of the 64-bit message length. -/
def lenToBytes8 (n : Nat) : List Nat :=
  [n / 2 ^ 56 % 256, n / 2 ^ 48 % 256, n / 2 ^ 40 % 256, n / 2 ^ 32 % 256,
   n / 2 ^ 24 % 256, n / 2 ^ 16 % 256, n / 2 ^ 8 % 256, n % 256]

/-- SHA-256 padding: append `0x80`, zeros, then the bit length. -/
def sha256Pad (msg : List Nat) : List Nat :=
  msg ++ 128 :: List.replicate ((64 - (msg.length + 9) % 64) % 64) 0
    ++ lenToBytes8 (8 * msg.length)

/-- Fuel-indexed chunking of a list into runs of `n` elements. -/
def chunkF (n : Nat) : Nat → List α → List (List α)
  | 0, _ => []
  | _ + 1, [] => []
  | fuel + 1, l => l.take n :: chunkF n fuel (l.drop n)

/-- Chunk a list into runs of `n` elements. -/
def chunk (n : Nat) (l : List α) : List (List α) := chunkF n l.length l

/-- Big-endian word from four bytes. -/
def bytesToWord : List Nat → Nat
  | [a, b, c, d] => ((a * 256 + b) * 256 + c) * 256 + d
  | _ => 0

/-- The first small sigma function of the message schedule. -/
def sSigma0 (x : Nat) : Nat :=
  (Nat.xor (Nat.xor (rotr32 7 x) (rotr32 18 x)) (x / 2 ^ 3)) % 2 ^ 32

/-- The second small sigma function of the message schedule. -/
def sSigma1 (x : Nat) : Nat :=
  (Nat.xor (Nat.xor (rotr32 17 x) (rotr32 19 x)) (x / 2 ^ 10)) % 2 ^ 32

/-- Extend the 16 block words to the 64-word message schedule. -/
def sha256Schedule (w16 : List Nat) : List Nat :=
  (List.range 48).foldl
    (fun w i =>
      w ++ [(sSigma1 (w.getD (i + 14) 0) + w.getD (i + 9) 0 +
             sSigma0 (w.getD (i + 1) 0) + w.getD i 0) % 2 ^ 32])
    w16

/-- One SHA-256 compression round on the eight-word working state. -/
def sha256Round (w : List Nat) (st : List Nat) (t : Nat) : List Nat :=
  match st with
  | [a, b, c, d, e, f, g, h] =>
    let bigS1 := Nat.xor (Nat.xor (rotr32 6 e) (rotr32 11 e)) (rotr32 25 e)
    let ch := Nat.xor (Nat.land e f) (Nat.land (Nat.xor e 0xffffffff) g)
    let temp1 := (h + bigS1 + ch + sha256K.getD t 0 + w.getD t 0) % 2 ^ 32
    let bigS0 := Nat.xor (Nat.xor (rotr32 2 a) (rotr32 13 a)) (rotr32 22 a)
    let maj := Nat.xor (Nat.xor (Nat.land a b) (Nat.land a c)) (Nat.land b c)
    let temp2 := (bigS0 + maj) % 2 ^ 32
    [(temp1 + temp2) % 2 ^ 32, a, b, c, (d + temp1) % 2 ^ 32, e, f, g]
  | _ => st

/-- Process one 64-byte block into the running hash value. -/
def sha256Block (hs : List Nat) (block : List Nat) : List Nat :=
  let w := sha256Schedule ((chunk 4 block).map bytesToWord)
  let st := (List.range 64).foldl (sha256Round w) hs
  List.zipWith (fun a b => (a + b) % 2 ^ 32) hs st

/-- The SHA-256 digest of a byte sequence, as 32 bytes. -/
def sha256 (msg : List Nat) : List Nat :=
  (((chunk 64 (sha256Pad msg)).foldl sha256Block sha256H0).map wordToBytes).flatten

/-- HMAC-SHA256 (`crypto/hmac` with `sha256.New`). -/
def hmacSha256 (key msg : List Nat) : List Nat :=
  let k0 := if 64 < key.length then sha256 key else key
  let kp := k0 ++ List.replicate (64 - k0.length) 0
  sha256 (kp.map (fun b => Nat.xor b 0x5c) ++
    sha256 (kp.map (fun b => Nat.xor b 0x36) ++ msg))

/-! ## The quiz-state authenticator (`signQuizState` / `verifyQuizState`) -/

/-- The signing key `hmacSecret` from `main.go`. -/
def hmacSecret : String := "astrology-quiz-secret-key-change-in-production"

/-- The key bytes handed to `hmac.New`. -/
def hmacSecretBytes : List Nat := strBytes hmacSecret

/-- The HMAC-SHA256 tag Go computes over a serialized state string. -/
def hmacTag (stateJSON : String) : List Nat :=
  hmacSha256 hmacSecretBytes (strBytes stateJSON)

/-- `signQuizState` from `main.go`: marshal the state, MAC the JSON
bytes with the server secret, and hex-encode the tag; `none` is the
error return of the (unreachable) marshalling-failure branch. -/
def signQuizState (state : QuizState) : Option String :=
  match jsonMarshalQuizState state with
  | none => none
  | some stateJSON => some (hexEncodeStr (hmacTag stateJSON))

/-- `verifyQuizState` from `main.go`: hex-decode the provided signature
(invalid input fails immediately), recompute the tag over the received
JSON, compare, and only on a match deserialize the payload; a
deserialization failure is also reported as invalid. -/
def verifyQuizState (stateJSON : String) (signature : String) :
    Option QuizState × Bool :=
  match hexDecodeStr signature with
  | none => (none, false)
  | some providedSig =>
    if providedSig = hmacTag stateJSON then
      match jsonUnmarshalQuizState stateJSON with
      | none => (none, false)
      | some state => (some state, true)
    else (none, false)

/-! ## The leaderboard store -/

/-- `LeaderboardEntry` from `main.go`; `when` is the completion instant
(`time.Time` embedded as a `Nat`, `Before` being `<`). -/
structure LeaderboardEntry where
  name : String
  score : Int
  total : Int
  when : Nat
deriving DecidableEq

/-- `MaxLeaderboardSize` from `main.go`. -/
def MaxLeaderboardSize : Nat := 20

/-- The sort order established by `saveScore`'s comparator (`Score`
descending, ties by earlier `When` first): `entryLE a b` holds exactly
when the Go `less` function does not order `b` strictly before `a`. -/
def entryLE (a b : LeaderboardEntry) : Prop :=
  b.score < a.score ∨ (a.score = b.score ∧ a.when ≤ b.when)

instance : DecidableRel entryLE := fun a b => by
  unfold entryLE; exact inferInstance

instance : IsTotal LeaderboardEntry entryLE where
  total a b := by unfold entryLE; omega

instance : IsTrans LeaderboardEntry entryLE where
  trans a b c hab hbc := by unfold entryLE at *; omega

/-- The sort performed by `saveScore`'s `sort.Slice` call. Modelled from
the Go standard library contract: `sort.Slice` produces a permutation
of the slice in which no element is `less` than a predecessor, and is
documented as not guaranteed to be stable, so the relative order of
entries tied under the comparator is unspecified. A functional model
must pick one admissible output; this one uses insertion sort
(`List.insertionSort`). No confirmed claim depends on which admissible
output is picked (every confirmed property is tie-order independent);
the unstable-vs-stable divergence itself is the subject of claim C2. -/
def sortEntries (l : List LeaderboardEntry) : List LeaderboardEntry :=
  List.insertionSort entryLE l

/-- The content of `leaderboard.json` as the store-level code observes
it: absent, present but unparseable, or a parsed entry list. The JSON
text itself is abstracted to its parse result, which is the only thing
`loadLeaderboard`'s `json.Unmarshal` call distinguishes. -/
inductive FileContent where
  | absent
  | corrupt
  | entries (l : List LeaderboardEntry)
deriving DecidableEq

/-- The error values surfaced by the leaderboard operations. -/
inductive LbError where
  | writeFailed
  | readFailed
  | parseFailed
deriving DecidableEq

/-- The process state the leaderboard code touches: the in-memory
manager (`leaderboardManager.entries`), the persisted file, and the
snapshot arrays already handed out by `getLeaderboard`. Each snapshot
is a freshly allocated backing array (Go's `append([]LeaderboardEntry{},
entries...)` always allocates, since the empty literal has capacity 0),
so the manager's own storage never aliases a snapshot; the model keeps
the snapshots as separate heap cells to state that mutations leave them
untouched. -/
structure World where
  entries : List LeaderboardEntry
  file : FileContent
  snaps : List (List LeaderboardEntry)
deriving DecidableEq

/-- `saveLeaderboard` from `main.go`: marshal the current entries
(total for this type) and write the file; `writeOk` is the environment's
verdict on `os.WriteFile`, and on failure the error is returned and the
model leaves the previous file content in place. -/
def saveLeaderboard (w : World) (writeOk : Bool) : World × Option LbError :=
  if writeOk then ({ w with file := .entries w.entries }, none)
  else (w, some .writeFailed)

/-- `saveScore` from `main.go`: append an entry stamped `now`, re-sort
the full list with the score-descending/time-ascending comparator,
truncate to `MaxLeaderboardSize`, then persist, returning
`saveLeaderboard`'s error. -/
def saveScore (w : World) (name : String) (score total : Int) (now : Nat)
    (writeOk : Bool) : World × Option LbError :=
  let appended := w.entries ++ [⟨name, score, total, now⟩]
  let sorted := sortEntries appended
  let truncated :=
    if MaxLeaderboardSize < sorted.length then sorted.take MaxLeaderboardSize
    else sorted
  saveLeaderboard { w with entries := truncated } writeOk

/-- `getLeaderboard` from `main.go`: return a copy of the current
entries; the model also records the freshly allocated copy as a new
snapshot cell and returns its index. -/
def getLeaderboard (w : World) : (List LeaderboardEntry × Nat) × World :=
  ((w.entries, w.snaps.length), { w with snaps := w.snaps ++ [w.entries] })

/-- `loadLeaderboard` from `main.go`: read the file; if absent, write an
empty array and install the empty list (reporting a write failure
instead if that write fails, without touching the store); if
unparseable, return a parse error leaving the store untouched;
otherwise install the parsed entries verbatim. -/
def loadLeaderboard (w : World) (writeOk : Bool) : World × Option LbError :=
  match w.file with
  | .absent =>
    if writeOk then ({ w with file := .entries [], entries := [] }, none)
    else (w, some .writeFailed)
  | .corrupt => (w, some .parseFailed)
  | .entries l => ({ w with entries := l }, none)

/-- What `main` (`main.go` lines 888–893) does with `loadLeaderboard`'s
result at startup: on error it calls `log.Printf("Warning: ...")` and
falls through to start the HTTP server; it never calls `log.Fatalf` or
exits on this path. `exited` is the outcome a fatal-at-startup handling
would produce. -/
inductive StartupOutcome where
  | exited
  | serving (entries : List LeaderboardEntry) (warned : Bool)
deriving DecidableEq

/-- The leaderboard-loading step of `main`, returning how the process
proceeds. -/
def mainStartupLeaderboard (w : World) (writeOk : Bool) : StartupOutcome :=
  match loadLeaderboard w writeOk with
  | (w', some _) => .serving w'.entries true
  | (w', none) => .serving w'.entries false

/-- Run a sequence of `saveScore` calls (score, timestamp) with a fixed
name and total, all writes succeeding. -/
def runSaveScores (w : World) (l : List (Int × Nat)) : World :=
  l.foldl (fun w p => (saveScore w "p" p.1 3 p.2 true).1) w

/-- The empty starting world: empty store, absent file, no snapshots. -/
def emptyWorld : World := ⟨[], .absent, []⟩

/-- 25 submissions with strictly decreasing scores 100, 99, …, 76 at
increasing timestamps (the spec's truncation example). -/
def truncationExample : List (Int × Nat) :=
  (List.range 25).map (fun (i : Nat) => (((100 : Int) - (i : Int), i) : Int × Nat))

/-- Scores 100, 100, 95, 105 at timestamps 0, 1, 0, 2 (the spec's
ordering example: T0 = 0, T1 = 1, T2 = 2). -/
def orderingExample : List (Int × Nat) :=
  [(100, 0), (100, 1), (95, 0), (105, 2)]

/-- A persisted file holding 21 entries in ascending score order:
longer than `MaxLeaderboardSize` and not ordered by the leaderboard
invariant. -/
def oversizedFile : List LeaderboardEntry :=
  (List.range 21).map (fun i => ⟨"p", (i : Int), 21, 0⟩)

/-! # Theorems -/

/-! ## Character and literal lemmas -/

/-- Consuming a literal prefix succeeds on exactly that prefix. -/
theorem parseLit_append (l r : List Char) : parseLit l (l ++ r) = some r := by
  induction l with
  | nil => rfl
  | cons c cs ih => simp [parseLit, ih]

/-- Hex digits decode to their value. -/
theorem hexVal_hexDigitChar (d : Nat) (h : d < 16) :
    hexVal (hexDigitChar d) = some d := by
  interval_cases d <;> decide

/-- Decimal digit characters have the expected code. -/
theorem decDigitChar_toNat (d : Nat) (h : d < 10) :
    (decDigitChar d).toNat = 48 + d := by
  interval_cases d <;> decide

/-- Decimal digit characters satisfy the digit test. -/
theorem decDigit_decDigitChar (d : Nat) (h : d < 10) :
    decDigit (decDigitChar d) = true := by
  interval_cases d <;> decide

/-! ## JSON string round trip -/

/-- The string-body parser undoes one character's escape, spending one
unit of fuel. -/
theorem parseJStrF_escapeChar (c : Char) (t : List Char) (f : Nat) :
    parseJStrF (f + 1) (escapeChar c ++ t) =
      (parseJStrF f t).map (fun p => (c :: p.1, p.2)) := by
  by_cases h1 : c = '"'
  · subst h1; simp [escapeChar, parseJStrF]
  by_cases h2 : c = '\\'
  · subst h2; simp [escapeChar, parseJStrF]
  by_cases h3 : c = '\n'
  · subst h3; simp [escapeChar, parseJStrF]
  by_cases h4 : c = '\r'
  · subst h4; simp [escapeChar, parseJStrF]
  by_cases h5 : c = '\t'
  · subst h5; simp [escapeChar, parseJStrF]
  by_cases h6 : c.toNat < 32
  · have hdiv : c.toNat / 16 < 16 := by omega
    have hmod : c.toNat % 16 < 16 := by omega
    have harith : ((0 * 16 + 0) * 16 + c.toNat / 16) * 16 + c.toNat % 16 = c.toNat := by
      omega
    have harith2 : c.toNat / 16 * 16 + c.toNat % 16 = c.toNat := by omega
    simp only [escapeChar, if_neg h1, if_neg h2, if_neg h3, if_neg h4, if_neg h5,
      if_pos h6, List.cons_append, List.nil_append, parseJStrF]
    simp [show hexVal '0' = some 0 by decide, hexVal_hexDigitChar _ hdiv,
      hexVal_hexDigitChar _ hmod, harith, harith2, Char.ofNat_toNat]
  by_cases h7 : c = '<'
  · subst h7; simp [escapeChar, parseJStrF]; rfl
  by_cases h8 : c = '>'
  · subst h8; simp [escapeChar, parseJStrF]; rfl
  by_cases h9 : c = '&'
  · subst h9; simp [escapeChar, parseJStrF]; rfl
  by_cases h10 : c.toNat = 8232
  · have hc : Char.ofNat 8232 = c := by rw [← h10, Char.ofNat_toNat]
    simp only [escapeChar, if_neg h1, if_neg h2, if_neg h3, if_neg h4, if_neg h5,
      if_neg h6, if_neg h7, if_neg h8, if_neg h9, if_pos h10,
      List.cons_append, List.nil_append, parseJStrF]
    simp [hexVal, hc]
  by_cases h11 : c.toNat = 8233
  · have hc : Char.ofNat 8233 = c := by rw [← h11, Char.ofNat_toNat]
    simp only [escapeChar, if_neg h1, if_neg h2, if_neg h3, if_neg h4, if_neg h5,
      if_neg h6, if_neg h7, if_neg h8, if_neg h9, if_neg h10, if_pos h11,
      List.cons_append, List.nil_append, parseJStrF]
    simp [hexVal, hc]
  · simp [escapeChar, if_neg h1, if_neg h2, if_neg h3, if_neg h4, if_neg h5,
      if_neg h6, if_neg h7, if_neg h8, if_neg h9, if_neg h10, if_neg h11,
      parseJStrF]

/-- Parsing the escaped rendering of a string consumes it up to the
closing quote, given fuel at least one per character plus one. -/
theorem parseJStrF_escList (d : List Char) : ∀ (fuel : Nat) (r : List Char),
    d.length + 1 ≤ fuel →
    parseJStrF fuel (escList d ++ '"' :: r) = some (d, r) := by
  induction d with
  | nil =>
    intro fuel r h
    match fuel, h with
    | f + 1, _ => simp [escList, parseJStrF]
  | cons c cs ih =>
    intro fuel r h
    match fuel, h with
    | f + 1, h =>
      rw [escList, List.append_assoc, parseJStrF_escapeChar,
        ih f r (by simp at h; omega)]
      rfl

set_option maxHeartbeats 1000000 in
/-- Escaping never erases a character. -/
theorem escapeChar_length_pos (c : Char) : 1 ≤ (escapeChar c).length := by
  unfold escapeChar
  split_ifs <;> simp

/-- Escaping never shortens a string. -/
theorem length_le_escList (d : List Char) : d.length ≤ (escList d).length := by
  induction d with
  | nil => simp [escList]
  | cons c cs ih =>
    have := escapeChar_length_pos c
    simp only [escList, List.length_append, List.length_cons]
    omega

/-- Round trip for one quoted JSON string. -/
theorem parseJString_renderStr (s : String) (r : List Char) :
    parseJString (renderStr s ++ r) = some (s, r) := by
  obtain ⟨d⟩ := s
  have hform : renderStr ⟨d⟩ ++ r = '"' :: (escList d ++ '"' :: r) := by
    simp [renderStr]
  rw [hform]
  have hlen := length_le_escList d
  simp only [parseJString]
  rw [parseJStrF_escList d _ r (by simp; omega)]
  rfl

/-- The rendering of a non-empty array's elements starts with a quote. -/
theorem renderArrElems_cons_head (s : String) (l : List String) :
    ∃ t, renderArrElems (s :: l) = '"' :: t := by
  cases l with
  | nil => exact ⟨escList s.data ++ ['"'], by simp [renderArrElems, renderStr]⟩
  | cons b m =>
    exact ⟨(escList s.data ++ ['"']) ++ ',' :: renderArrElems (b :: m),
      by simp [renderArrElems, renderStr]⟩

/-- The rendering of a non-empty array's elements is at least one
character per element. -/
theorem length_le_renderArrElems : ∀ (l : List String), l ≠ [] →
    l.length ≤ (renderArrElems l).length
  | [s], _ => by simp [renderArrElems, renderStr]
  | s :: b :: m, _ => by
    have ih := length_le_renderArrElems (b :: m) (by simp)
    simp only [renderArrElems, renderStr, List.length_append, List.length_cons] at *
    omega

/-- Round trip for the element loop of a non-empty string array. -/
theorem parseArrElemsF_renderArrElems : ∀ (l : List String), l ≠ [] →
    ∀ (fuel : Nat) (r : List Char), l.length ≤ fuel →
    parseArrElemsF fuel (renderArrElems l ++ ']' :: r) = some (l, r)
  | [s], _, fuel, r, h => by
    match fuel, h with
    | f + 1, _ =>
      simp only [renderArrElems, parseArrElemsF, parseJString_renderStr]
  | s :: b :: m, _, fuel, r, h => by
    match fuel, h with
    | f + 1, h =>
      have ih := parseArrElemsF_renderArrElems (b :: m) (by simp) f r
        (by simp at h ⊢; omega)
      simp only [renderArrElems, List.cons_append, List.append_assoc]
      simp only [parseArrElemsF, parseJString_renderStr, ih]
      rfl

/-- Round trip for a JSON `[]string` value. -/
theorem parseJsonStrArr_renderArr (l : List String) (r : List Char) :
    parseJsonStrArr (renderArr l ++ r) = some (l, r) := by
  cases l with
  | nil => simp [renderArr, parseJsonStrArr]
  | cons s m =>
    obtain ⟨t, ht⟩ := renderArrElems_cons_head s m
    have hlen := length_le_renderArrElems (s :: m) (by simp)
    have hform : renderArr (s :: m) ++ r =
        '[' :: (renderArrElems (s :: m) ++ ']' :: r) := by
      simp [renderArr]
    have hq : renderArrElems (s :: m) ++ ']' :: r = '"' :: (t ++ ']' :: r) := by
      rw [ht]; simp
    rw [hform]
    simp only [parseJsonStrArr]
    split
    · next r2 heq =>
      rw [hq] at heq
      simp at heq
    · apply parseArrElemsF_renderArrElems (s :: m) (by simp)
      simp only [List.length_append, List.length_cons] at *
      omega

/-! ## JSON number round trip -/

/-- `takeWhile`/`dropWhile` split an all-satisfying prefix from a tail
whose head fails the predicate. -/
theorem takeWhile_dropWhile_append (p : Char → Bool) (l tail : List Char)
    (hl : ∀ c ∈ l, p c = true)
    (ht : ∀ c, tail.head? = some c → p c = false) :
    (l ++ tail).takeWhile p = l ∧ (l ++ tail).dropWhile p = tail := by
  induction l with
  | nil =>
    cases tail with
    | nil => simp
    | cons c t =>
      have := ht c rfl
      simp [List.takeWhile_cons, List.dropWhile_cons, this]
  | cons c cs ih =>
    have hc := hl c (List.mem_cons_self c cs)
    have ihh := ih (fun x hx => hl x (List.mem_cons_of_mem c hx))
    simp [List.takeWhile_cons, List.dropWhile_cons, hc, ihh.1, ihh.2]

/-- Every character of a decimal rendering is a digit. -/
theorem natDec_all_digits (n : Nat) : ∀ c ∈ natDec n, decDigit c = true := by
  intro c hc
  unfold natDec at hc
  split at hc
  · simp at hc
    subst hc
    decide
  · simp only [List.mem_map, List.mem_reverse] at hc
    obtain ⟨d, hd, rfl⟩ := hc
    exact decDigit_decDigitChar d (Nat.digits_lt_base (by norm_num) hd)

/-- A decimal rendering is never empty. -/
theorem natDec_ne_nil (n : Nat) : natDec n ≠ [] := by
  unfold natDec
  split
  · simp
  · simp only [ne_eq, List.map_eq_nil_iff, List.reverse_eq_nil_iff]
    next h => exact Nat.digits_ne_nil_iff_ne_zero.mpr h

/-- Folding the digit characters of a decimal rendering recovers the
number. -/
theorem natDec_foldl (n : Nat) :
    (natDec n).foldl (fun a c => 10 * a + (c.toNat - 48)) 0 = n := by
  unfold natDec
  split
  · next h => subst h; decide
  · next h =>
    rw [List.foldl_map]
    have hdig : ∀ (a : Nat), ∀ d ∈ (Nat.digits 10 n).reverse,
        10 * a + ((decDigitChar d).toNat - 48) = 10 * a + d := by
      intro a d hd
      rw [decDigitChar_toNat d (Nat.digits_lt_base (by norm_num)
        (List.mem_reverse.mp hd))]
      omega
    rw [List.foldl_ext _ (fun a d => 10 * a + d) 0 hdig, List.foldl_reverse]
    have hof : ∀ l : List Nat, l.foldr (fun x y => 10 * y + x) 0 = Nat.ofDigits 10 l := by
      intro l
      induction l with
      | nil => simp [Nat.ofDigits]
      | cons d t ih => simp [Nat.ofDigits, ih]; ring
    rw [hof, Nat.ofDigits_digits]

/-- Round trip for a natural number before a non-digit tail. -/
theorem parseNatNum_natDec (n : Nat) (tail : List Char)
    (ht : ∀ c, tail.head? = some c → decDigit c = false) :
    parseNatNum (natDec n ++ tail) = some (n, tail) := by
  obtain ⟨htake, hdrop⟩ :=
    takeWhile_dropWhile_append decDigit (natDec n) tail (natDec_all_digits n) ht
  simp [parseNatNum, htake, hdrop, List.isEmpty_iff, natDec_ne_nil, natDec_foldl]

/-- Round trip for a Go `int` before a non-digit tail. -/
theorem parseIntNum_intDec (n : Int) (tail : List Char)
    (ht : ∀ c, tail.head? = some c → decDigit c = false) :
    parseIntNum (intDec n ++ tail) = some (n, tail) := by
  unfold intDec
  split
  · next h =>
    rw [List.cons_append]
    simp [parseIntNum, parseNatNum_natDec n.natAbs tail ht, abs_of_neg h]
  · next h =>
    obtain ⟨c, cs, hcc⟩ : ∃ c cs, natDec n.toNat = c :: cs := by
      cases hh : natDec n.toNat with
      | nil => exact absurd hh (natDec_ne_nil _)
      | cons c cs => exact ⟨c, cs, rfl⟩
    have hdig : decDigit c = true :=
      natDec_all_digits n.toNat c (by rw [hcc]; exact List.mem_cons_self c cs)
    have hcm : ¬c = '-' := by
      intro e
      subst e
      exact absurd hdig (by decide)
    rw [hcc, List.cons_append]
    simp only [parseIntNum, if_neg hcm, ← List.cons_append, ← hcc]
    rw [parseNatNum_natDec n.toNat tail ht]
    simp
    omega

/-! ## Round trip for the whole serialized object -/

/-- The `,"score":` separator starts with a comma, not a digit. -/
theorem keyScore_head_not_digit (x : List Char) :
    ∀ c, (keyScore ++ x).head? = some c → decDigit c = false := by
  intro c hc
  have hk : keyScore ++ x = ',' :: ("\"score\":".data ++ x) := rfl
  rw [hk] at hc
  simp only [List.head?_cons, Option.some.injEq] at hc
  subst hc
  decide

/-- The closing brace is not a digit. -/
theorem closeBrace_head_not_digit :
    ∀ c, (['\x7d'] : List Char).head? = some c → decDigit c = false := by
  intro c hc
  simp only [List.head?_cons, Option.some.injEq] at hc
  subst hc
  decide

/-- Parsing the canonical serialization of a `QuizState` recovers it. -/
theorem parseQuizState_quizStateJsonChars (p : QuizState) :
    parseQuizState (quizStateJsonChars p) = some p := by
  obtain ⟨ids, ci, sc⟩ := p
  have h1 : quizStateJsonChars ⟨ids, ci, sc⟩ =
      keyQuestionIds ++ (renderArr ids ++ (keyCurrentIndex ++ (intDec ci ++
        (keyScore ++ (intDec sc ++ ['\x7d']))))) := by
    simp [quizStateJsonChars, List.append_assoc]
  have hci : parseIntNum (intDec ci ++ (keyScore ++ (intDec sc ++ ['\x7d']))) =
      some (ci, keyScore ++ (intDec sc ++ ['\x7d'])) :=
    parseIntNum_intDec ci _ (keyScore_head_not_digit _)
  have hsc : parseIntNum (intDec sc ++ ['\x7d']) = some (sc, ['\x7d']) :=
    parseIntNum_intDec sc _ closeBrace_head_not_digit
  rw [h1]
  simp only [parseQuizState, parseLit_append, parseJsonStrArr_renderArr, hci, hsc]

/-- `Unmarshal` of `Marshal` output recovers the state. -/
theorem jsonUnmarshal_marshal (p : QuizState) :
    jsonUnmarshalQuizState (quizStateJson p) = some p :=
  parseQuizState_quizStateJsonChars p

/-! ## Hex round trip and digest byte bounds -/

/-- Hex-decoding a hex encoding of genuine bytes recovers them. -/
theorem hexDecode_hexEncChars (l : List Nat) (h : ∀ b ∈ l, b < 256) :
    hexDecode (hexEncChars l) = some l := by
  induction l with
  | nil => rfl
  | cons b t ih =>
    have hb := h b (List.mem_cons_self b t)
    have harith : 16 * (b / 16) + b % 16 = b := by omega
    simp [hexEncChars, hexDecode, hexVal_hexDigitChar (b / 16) (by omega),
      hexVal_hexDigitChar (b % 16) (by omega),
      ih (fun x hx => h x (List.mem_cons_of_mem b hx)), harith]

/-- Hex round trip at the string level. -/
theorem hexDecodeStr_hexEncodeStr (l : List Nat) (h : ∀ b ∈ l, b < 256) :
    hexDecodeStr (hexEncodeStr l) = some l := by
  unfold hexDecodeStr hexEncodeStr
  exact hexDecode_hexEncChars l h

/-- Each byte of a word decomposition is a genuine byte. -/
theorem wordToBytes_lt (w : Nat) : ∀ b ∈ wordToBytes w, b < 256 := by
  intro b hb
  simp only [wordToBytes, List.mem_cons, List.not_mem_nil, or_false] at hb
  rcases hb with h | h | h | h <;> omega

/-- Every byte of a SHA-256 digest is below 256. -/
theorem sha256_all_lt (msg : List Nat) : ∀ b ∈ sha256 msg, b < 256 := by
  intro b hb
  unfold sha256 at hb
  simp only [List.mem_flatten, List.mem_map] at hb
  obtain ⟨l, ⟨w, _, rfl⟩, hbl⟩ := hb
  exact wordToBytes_lt w b hbl

/-- Every byte of an HMAC-SHA256 tag is below 256. -/
theorem hmacSha256_all_lt (key msg : List Nat) :
    ∀ b ∈ hmacSha256 key msg, b < 256 := by
  intro b hb
  simp only [hmacSha256] at hb
  exact sha256_all_lt _ b hb

/-- `verifyQuizState` when hex decoding fails. -/
theorem verifyQuizState_decode_none (j sig : String)
    (h : hexDecodeStr sig = none) : verifyQuizState j sig = (none, false) := by
  unfold verifyQuizState
  rw [h]

/-- `verifyQuizState` when hex decoding yields a signature `b`. -/
theorem verifyQuizState_decode_some (j sig : String) (b : List Nat)
    (h : hexDecodeStr sig = some b) :
    verifyQuizState j sig =
      if b = hmacTag j then
        match jsonUnmarshalQuizState j with
        | none => (none, false)
        | some state => (some state, true)
      else (none, false) := by
  unfold verifyQuizState
  rw [h]

/-! ## Claims about the authenticator -/

/-- C9: `signQuizState` returns a token and a nil error for every
`QuizState`: the only error branch is the marshalling failure, and
marshalling a well-typed `QuizState` cannot fail. -/
theorem signQuizState_never_fails (p : QuizState) :
    jsonMarshalQuizState p ≠ none ∧
      signQuizState p = some (hexEncodeStr (hmacTag (quizStateJson p))) :=
  ⟨by simp [jsonMarshalQuizState], rfl⟩

set_option maxHeartbeats 2000000 in
/-- C1: signing a `QuizState` and then verifying its JSON serialization
together with that token returns the same state and `valid = true`. -/
theorem sign_then_verify_roundtrip (p : QuizState) :
    ∃ token, signQuizState p = some token ∧
      verifyQuizState (quizStateJson p) token = (some p, true) := by
  refine ⟨hexEncodeStr (hmacTag (quizStateJson p)), rfl, ?_⟩
  have hbytes : ∀ b ∈ hmacTag (quizStateJson p), b < 256 :=
    hmacSha256_all_lt hmacSecretBytes (strBytes (quizStateJson p))
  have hdec : hexDecodeStr (hexEncodeStr (hmacTag (quizStateJson p))) =
      some (hmacTag (quizStateJson p)) :=
    hexDecodeStr_hexEncodeStr (hmacTag (quizStateJson p)) hbytes
  rw [verifyQuizState_decode_some _ _ _ hdec, if_pos rfl, jsonUnmarshal_marshal p]

set_option maxHeartbeats 2000000 in
/-- C5: `verifyQuizState` reports invalid exactly on a hex-decoding
failure, a tag mismatch, or a deserialization failure after a tag
match. -/
theorem verifyQuizState_invalid_iff (j sig : String) :
    verifyQuizState j sig = (none, false) ↔
      hexDecodeStr sig = none ∨
      (∃ b, hexDecodeStr sig = some b ∧ b ≠ hmacTag j) ∨
      (hexDecodeStr sig = some (hmacTag j) ∧ jsonUnmarshalQuizState j = none) := by
  cases h : hexDecodeStr sig with
  | none =>
    rw [verifyQuizState_decode_none j sig h]
    simp
  | some b =>
    rw [verifyQuizState_decode_some j sig b h]
    by_cases hb : b = hmacTag j
    · rw [if_pos hb]
      cases hu : jsonUnmarshalQuizState j with
      | none => simp [hb, hu]
      | some st => simp [hb, hu]
    · rw [if_neg hb]
      simp [hb]

/-! ## Leaderboard lemmas -/

/-- `saveScore` always leaves the appended, sorted list truncated to the
cap (taking the first `MaxLeaderboardSize` is a no-op when the sorted
list is short enough). -/
theorem saveScore_entries_eq (w : World) (name : String) (score total : Int)
    (now : Nat) (writeOk : Bool) :
    (saveScore w name score total now writeOk).1.entries =
      (sortEntries (w.entries ++ [⟨name, score, total, now⟩])).take
        MaxLeaderboardSize := by
  unfold saveScore saveLeaderboard
  have htr : (if MaxLeaderboardSize <
        (sortEntries (w.entries ++ [⟨name, score, total, now⟩])).length then
      (sortEntries (w.entries ++ [⟨name, score, total, now⟩])).take MaxLeaderboardSize
    else sortEntries (w.entries ++ [⟨name, score, total, now⟩])) =
      (sortEntries (w.entries ++ [⟨name, score, total, now⟩])).take
        MaxLeaderboardSize := by
    split
    · rfl
    · next h => rw [List.take_of_length_le (by omega)]
  cases writeOk <;> simp [htr]

/-- `saveScore` never touches the snapshot cells. -/
theorem saveScore_snaps_eq (w : World) (name : String) (score total : Int)
    (now : Nat) (writeOk : Bool) :
    (saveScore w name score total now writeOk).1.snaps = w.snaps := by
  unfold saveScore saveLeaderboard
  cases writeOk <;> simp

/-- The sorted output of `sortEntries` is ordered by the comparator. -/
theorem sortEntries_sorted (l : List LeaderboardEntry) :
    (sortEntries l).Pairwise entryLE :=
  List.sorted_insertionSort entryLE l

/-- The sorted output of `sortEntries` is a permutation of the input. -/
theorem sortEntries_perm (l : List LeaderboardEntry) :
    (sortEntries l).Perm l :=
  List.perm_insertionSort entryLE l

/-! ## Claims about the leaderboard store -/

set_option maxRecDepth 100000 in
/-- C2: the program re-sorts the full entry list by the comparator on
every `saveScore` call, but does not provide the claimed stable sort:
the call is `sort.Slice`, whose Go contract guarantees only a
comparator-ordered permutation and expressly not stability. For
entries tied on both score and timestamp the comparator cannot
distinguish the orders — every permutation of such a tied pair
satisfies the contract, as proved here — so the tie order after the
call is unspecified (`sort.SliceStable` would be required). On
distinct keys the order is fully determined, and the spec's
100/100/95/105 example does come out 105, 100 (T0), 100 (T1), 95. -/
theorem saveScore_tie_order_unspecified (l' : List LeaderboardEntry)
    (h : l'.Perm [⟨"a", 10, 3, 0⟩, ⟨"b", 10, 3, 0⟩]) :
    l'.Pairwise entryLE ∧
    (runSaveScores emptyWorld orderingExample).entries.map
        (fun e => (e.score, e.when)) =
      [(105, 2), (100, 0), (100, 1), (95, 0)] := by
  constructor
  · apply List.pairwise_of_forall_mem_list
    intro a ha b hb
    rw [h.mem_iff] at ha hb
    simp only [List.mem_cons, List.not_mem_nil, or_false] at ha hb
    rcases ha with rfl | rfl <;> rcases hb with rfl | rfl <;> decide
  · decide

set_option maxRecDepth 100000 in
/-- Witness for C2 at a concrete permutation: the reversed tied pair
also satisfies the comparator contract. -/
theorem saveScore_tie_order_unspecified_witness :
    (([⟨"b", 10, 3, 0⟩, ⟨"a", 10, 3, 0⟩] : List LeaderboardEntry).Perm
        [⟨"a", 10, 3, 0⟩, ⟨"b", 10, 3, 0⟩]) ∧
    (([⟨"b", 10, 3, 0⟩, ⟨"a", 10, 3, 0⟩] : List LeaderboardEntry).Pairwise entryLE ∧
      (runSaveScores emptyWorld orderingExample).entries.map
          (fun e => (e.score, e.when)) =
        [(105, 2), (100, 0), (100, 1), (95, 0)]) :=
  ⟨by decide, saveScore_tie_order_unspecified _ (by decide)⟩

set_option maxRecDepth 100000 in
/-- C3: after any `saveScore` call on any starting store the entry list
holds at most 20 entries; 25 sequential calls with strictly decreasing
scores 100, 99, …, 76 leave exactly the 20 entries with scores 100 down
to 81. -/
theorem saveScore_cap :
    (∀ (w : World) (name : String) (score total : Int) (now : Nat)
        (writeOk : Bool),
      (saveScore w name score total now writeOk).1.entries.length ≤
        MaxLeaderboardSize) ∧
    (runSaveScores emptyWorld truncationExample).entries.map (fun e => e.score) =
      (List.range MaxLeaderboardSize).map (fun (i : Nat) => ((100 : Int) - (i : Int))) := by
  constructor
  · intro w name score total now ok
    rw [saveScore_entries_eq]
    simp [List.length_take]
  · decide

/-- C6: when persisting fails, `saveScore` returns the write error while
the in-memory list retains the appended, sorted, truncated mutation and
the file keeps its previous content. -/
theorem saveScore_persist_failure (w : World) (name : String)
    (score total : Int) (now : Nat) :
    (saveScore w name score total now false).2 = some .writeFailed ∧
    (saveScore w name score total now false).1.entries =
      (sortEntries (w.entries ++ [⟨name, score, total, now⟩])).take
        MaxLeaderboardSize ∧
    (saveScore w name score total now false).1.file = w.file :=
  ⟨rfl, saveScore_entries_eq w name score total now false, rfl⟩

/-- C7: `getLeaderboard` returns a copy of the entries in a freshly
allocated snapshot cell, and a subsequent `saveScore` mutation leaves
that snapshot cell unchanged. -/
theorem getLeaderboard_copy_unaffected (w : World) (name : String)
    (score total : Int) (now : Nat) (writeOk : Bool) :
    (getLeaderboard w).1.1 = w.entries ∧
    ((getLeaderboard w).2.snaps)[w.snaps.length]? = some w.entries ∧
    ((saveScore (getLeaderboard w).2 name score total now writeOk).1.snaps)[w.snaps.length]?
      = some w.entries := by
  refine ⟨rfl, ?_, ?_⟩
  · show (w.snaps ++ [w.entries])[w.snaps.length]? = some w.entries
    exact List.getElem?_concat_length _ _
  · rw [saveScore_snaps_eq]
    show (w.snaps ++ [w.entries])[w.snaps.length]? = some w.entries
    exact List.getElem?_concat_length _ _

/-- C8: loading with the persisted file absent installs the empty entry
list, persists an empty array, and returns success. -/
theorem loadLeaderboard_absent_initializes (w : World) (h : w.file = .absent) :
    loadLeaderboard w true = ({ w with entries := [], file := .entries [] }, none) := by
  unfold loadLeaderboard
  rw [h]
  rfl

/-- Witness for C8 at a concrete world. -/
theorem loadLeaderboard_absent_initializes_witness :
    loadLeaderboard ⟨[⟨"a", 2, 3, 5⟩], .absent, [[]]⟩ true =
      (⟨[], .entries [], [[]]⟩, none) :=
  loadLeaderboard_absent_initializes ⟨[⟨"a", 2, 3, 5⟩], .absent, [[]]⟩ rfl

/-- C4 counterexample: with a corrupt leaderboard file at startup the
process is not terminated — `main` continues to serve (with a warning
logged and an empty store), contradicting a fatal-at-startup reading. -/
theorem mainStartup_corrupt_not_fatal :
    mainStartupLeaderboard ⟨[], .corrupt, []⟩ true = .serving [] true ∧
    mainStartupLeaderboard ⟨[], .corrupt, []⟩ true ≠ .exited := by decide

/-- C4 amended: when the persisted file exists but cannot be parsed,
`loadLeaderboard` returns a parse error and leaves the store untouched;
`main` logs a warning and the process continues serving with the store
it had (empty at startup), not with the corrupted data. -/
theorem loadLeaderboard_corrupt_warns (w : World) (writeOk : Bool)
    (h : w.file = .corrupt) :
    loadLeaderboard w writeOk = (w, some .parseFailed) ∧
    mainStartupLeaderboard w writeOk = .serving w.entries true := by
  have h1 : loadLeaderboard w writeOk = (w, some .parseFailed) := by
    unfold loadLeaderboard
    rw [h]
  refine ⟨h1, ?_⟩
  unfold mainStartupLeaderboard
  rw [h1]

/-- Witness for the amended C4 at a concrete world. -/
theorem loadLeaderboard_corrupt_warns_witness :
    loadLeaderboard ⟨[], .corrupt, []⟩ true =
      (⟨[], .corrupt, []⟩, some .parseFailed) ∧
    mainStartupLeaderboard ⟨[], .corrupt, []⟩ true = .serving [] true :=
  loadLeaderboard_corrupt_warns ⟨[], .corrupt, []⟩ true rfl

set_option maxRecDepth 100000 in
/-- C10: `loadLeaderboard` installs parsed file contents verbatim —
no sort, no truncation — so a 21-entry unsorted file leaves the store
over the cap and out of order until the next `saveScore` restores both
invariants. -/
theorem loadLeaderboard_verbatim :
    (∀ (w : World) (l : List LeaderboardEntry) (ok : Bool),
      w.file = .entries l → (loadLeaderboard w ok).1.entries = l) ∧
    ((loadLeaderboard ⟨[], .entries oversizedFile, []⟩ true).1.entries.length = 21 ∧
      MaxLeaderboardSize <
        (loadLeaderboard ⟨[], .entries oversizedFile, []⟩ true).1.entries.length ∧
      ¬ (loadLeaderboard ⟨[], .entries oversizedFile, []⟩
          true).1.entries.Pairwise entryLE) ∧
    ((saveScore (loadLeaderboard ⟨[], .entries oversizedFile, []⟩ true).1
        "q" 50 21 99 true).1.entries.length ≤ MaxLeaderboardSize ∧
      (saveScore (loadLeaderboard ⟨[], .entries oversizedFile, []⟩ true).1
        "q" 50 21 99 true).1.entries.Pairwise entryLE) := by
  refine ⟨?_, by decide, by decide⟩
  intro w l ok h
  unfold loadLeaderboard
  rw [h]

/-- Witness for C10 at a concrete world. -/
theorem loadLeaderboard_verbatim_witness :
    (loadLeaderboard ⟨[], .entries oversizedFile, []⟩ true).1.entries =
      oversizedFile :=
  loadLeaderboard_verbatim.1 ⟨[], .entries oversizedFile, []⟩ oversizedFile true rfl

end AstroQuiz
